import Mathlib

/-!
Verification of the kanban board client's drag-and-drop reorder/move engine
and API client, as a shallow embedding of `src/js/board.js` and
`src/js/api.js`.

The in-memory Board Model (`columns`) and the DOM (modelled as the per-column
lists of task-element ids plus the column-element order) are embedded as
explicit state.  The document-level `drop` handler is embedded as pure
functions from the pre-drop state, the drag payload and the API outcome to
the post-drop state together with the list of externally visible actions
(API calls, console logging, `loadBoard`, `renderBoard`).
-/

namespace Kanban

/-- A task of the Board Model: `{id, title, description, order, column}` as
delivered by `getBoard()`.  The `title`/`description` strings play no role in
the ordering logic and are omitted. -/
structure Task where
  id : Nat
  order : Nat
  column : Nat
deriving Repr, DecidableEq

/-- A column of the Board Model: `{id, name, order, tasks}`. -/
structure Column where
  id : Nat
  name : String
  order : Nat
  tasks : List Task
deriving Repr, DecidableEq

/-- A rendered column element: its `data-column-id` and the ids of its task
elements in DOM order (`tasksContainer.querySelectorAll('.task')`). -/
structure DomColumn where
  id : Nat
  taskIds : List Nat
deriving Repr, DecidableEq

/-- The board page state: the in-memory `columns` array and the DOM. -/
structure EngineState where
  columns : List Column
  dom : List DomColumn
deriving Repr, DecidableEq

/-- The `draggedTask` record set on `dragstart`:
`{taskId: …, columnId: …}` (the element reference is represented by the id). -/
structure DraggedTask where
  taskId : Nat
  columnId : Nat
deriving Repr, DecidableEq

/-- Externally visible effects of the drop handler, in program order:
the API calls it issues, `console.error`, and the recovery actions
`loadBoard()` (full refetch via `getBoard`) and `renderBoard()`
(re-render of the DOM from the in-memory model, no network). -/
inductive Action where
  | reorderTasksCall (orders : List (Nat × Nat))
  | moveTaskCall (taskId toColumnId : Nat)
  | reorderColumnsCall (orders : List (Nat × Nat))
  | logError
  | loadBoardCall
  | renderBoardCall
deriving Repr, DecidableEq

/-- DOM `parent.insertBefore(x, target)`: `x` is placed immediately before
the first element matching `target`; with no such child it lands at the end
(the `insertBefore(x, null)` append case). -/
def insertBeforeP (p : α → Bool) (x : α) : List α → List α
  | [] => [x]
  | a :: l => if p a then x :: a :: l else a :: insertBeforeP p x l

/-- DOM `parent.insertBefore(x, target.nextSibling)`: `x` is placed
immediately after the first element matching `target`, or at the end when
`target` is the last child. -/
def insertAfterP (p : α → Bool) (x : α) : List α → List α
  | [] => [x]
  | a :: l => if p a then a :: x :: l else a :: insertAfterP p x l

/-- In-place mutation of the first list element matching `p`, as performed by
the JS pattern `const c = list.find(p); …mutate c…`. -/
def updateFirst (p : α → Bool) (f : α → α) : List α → List α
  | [] => []
  | a :: l => if p a then f a :: l else a :: updateFirst p f l

/-- One step of a stable insertion sort: `a` is placed after every element
already in the list that compares less-or-equal to it, so elements that
compare equal keep their original relative order. -/
def sortInsert (le : α → α → Bool) (a : α) : List α → List α
  | [] => [a]
  | b :: l => if le b a then b :: sortInsert le a l else a :: b :: l

/-- The stable comparator sort of `Array.prototype.sort` (ECMAScript
requires the sort to be stable), embedded as a left-to-right stable
insertion sort. -/
def sortBy (le : α → α → Bool) (l : List α) : List α :=
  l.foldl (fun acc a => sortInsert le a acc) []

/-- The element-move step shared by the within-column task reorder
(lines 381-389 of board.js) and the column reorder (lines 443-448): compare
the current child indexes of the dragged and target elements, then move the
dragged element after the target when it was before it, and before the
target otherwise.  `k` extracts the identity (`data-*-id`) of a child. -/
def moveByKey (k : α → Nat) (l : List α) (d t : Nat) : List α :=
  match l.find? (fun a => k a == d) with
  | none => l
  | some da =>
    let di := l.findIdx (fun a => k a == d)
    let ti := l.findIdx (fun a => k a == t)
    let rest := l.eraseP (fun a => k a == d)
    if di < ti then insertAfterP (fun a => k a == t) da rest
    else insertBeforeP (fun a => k a == t) da rest

/-- Helper for the order assignment `list.map((x, i) => ({id, order: i + 1}))`
starting at index `n`. -/
def assignOrdersFrom (n : Nat) : List Nat → List (Nat × Nat)
  | [] => []
  | i :: l => (i, n + 1) :: assignOrdersFrom (n + 1) l

/-- The `newOrder` payload built from the post-move DOM order:
`Array.from(container.querySelectorAll(sel)).map((x, i) => ({id: …, order: i + 1}))`. -/
def assignOrders (ids : List Nat) : List (Nat × Nat) :=
  assignOrdersFrom 0 ids

/-- The sort key used on success: `newOrder.find(o => o.id === x.id)?.order || 0`. -/
def orderLookup (orders : List (Nat × Nat)) (taskId : Nat) : Nat :=
  match orders.find? (fun o => o.1 == taskId) with
  | some o => o.2
  | none => 0

/-- The DOM produced by `renderBoard()`: one column element per model column,
holding its tasks in model-list order. -/
def renderBoard (cols : List Column) : List DomColumn :=
  cols.map (fun c => { id := c.id, taskIds := c.tasks.map (fun tk => tk.id) })

/-- The within-column reorder branch of the drop handler
(board.js lines 380-406): move the dragged element in the DOM, build
`newOrder`, call `api.reorderTasks`; on success sort the model column's task
array by the submitted order, mirroring the stable ascending
`col.tasks.sort((a, b) => (aO?.order || 0) - (bO?.order || 0))`; on failure
log and call `loadBoard()`.  The model column list is untouched on failure. -/
def reorderBranch (st : EngineState) (d t colId : Nat) (apiOk : Bool) :
    EngineState × List Action :=
  match st.dom.find? (fun dc => dc.id == colId) with
  | none => (st, [])
  | some domCol =>
    let ids2 := moveByKey (fun i => i) domCol.taskIds d t
    let newOrder := assignOrders ids2
    let dom2 := updateFirst (fun dc => dc.id == colId)
      (fun dc => { dc with taskIds := ids2 }) st.dom
    if apiOk then
      let sortKey : Task → Task → Bool := fun a b =>
        decide (orderLookup newOrder a.id ≤ orderLookup newOrder b.id)
      let cols2 := updateFirst (fun c => c.id == colId)
        (fun c => { c with tasks := sortBy sortKey c.tasks }) st.columns
      ({ columns := cols2, dom := dom2 }, [Action.reorderTasksCall newOrder])
    else
      ({ columns := st.columns, dom := dom2 },
       [Action.reorderTasksCall newOrder, Action.logError, Action.loadBoardCall])

/-- The model mutation of the cross-column move success path
(board.js lines 413-422): look up the source and destination columns, splice
the task out of the source array, set `task.column = toColumnId`, push it
onto the destination array. -/
def moveTaskModel (cols : List Column) (taskId fromId toId : Nat) : List Column :=
  match cols.find? (fun c => c.id == fromId), cols.find? (fun c => c.id == toId) with
  | some fromCol, some _ =>
    match fromCol.tasks.find? (fun tk => tk.id == taskId) with
    | some tk =>
      let moved := { tk with column := toId }
      updateFirst (fun c => c.id == toId)
        (fun c => { c with tasks := c.tasks ++ [moved] })
        (updateFirst (fun c => c.id == fromId)
          (fun c => { c with tasks := c.tasks.eraseP (fun x => x.id == taskId) })
          cols)
    | none => cols
  | _, _ => cols

/-- The cross-column branch of the drop handler (board.js lines 407-432):
the dragged element is moved in the DOM (before the target task, or appended
to the drop column), then `api.moveTask` is called; on success the model is
mutated by `moveTaskModel`; on failure the handler logs and calls
`loadBoard()`, leaving the model untouched. -/
def moveBranch (st : EngineState) (taskId fromId toId : Nat) (tgt : Option Nat)
    (apiOk : Bool) : EngineState × List Action :=
  let domErased := st.dom.map
    (fun dc => { dc with taskIds := dc.taskIds.eraseP (fun i => i == taskId) })
  let dom2 := updateFirst (fun dc => dc.id == toId)
    (fun dc => { dc with taskIds :=
      match tgt with
      | some t => insertBeforeP (fun i => i == t) taskId dc.taskIds
      | none => dc.taskIds ++ [taskId] }) domErased
  if apiOk then
    ({ columns := moveTaskModel st.columns taskId fromId toId, dom := dom2 },
     [Action.moveTaskCall taskId toId])
  else
    ({ columns := st.columns, dom := dom2 },
     [Action.moveTaskCall taskId toId, Action.logError, Action.loadBoardCall])

/-- The task part of the document-level drop handler (board.js lines 364-435).
`dropColumnId` is `e.target.closest('.column')` (none when the drop landed
outside every column), `targetTaskId` is `e.target.closest('.task')`.
Dropping a task on itself (`targetTask === draggedTask.element`) or on empty
space of its own column falls through the guard on line 380 and performs no
API call and no mutation. -/
def handleTaskDrop (st : EngineState) (dragged : DraggedTask)
    (dropColumnId : Option Nat) (targetTaskId : Option Nat) (apiOk : Bool) :
    EngineState × List Action :=
  match dropColumnId with
  | none => (st, [])
  | some toId =>
    if dragged.columnId == toId then
      match targetTaskId with
      | some t =>
        if t == dragged.taskId then (st, [])
        else reorderBranch st dragged.taskId t toId apiOk
      | none => (st, [])
    else moveBranch st dragged.taskId dragged.columnId toId targetTaskId apiOk

/-- The column part of the document-level drop handler
(board.js lines 437-458).  The guard on line 440 makes a drop outside any
column, or onto the dragged column itself, a no-op.  Otherwise the dragged
column element is moved, `newOrder` is built from the resulting DOM order
and submitted via `api.reorderColumns`; on success the model column list is
rebuilt by id lookup (`newOrder.map(o => columns.find(c => c.id === o.id))`,
entries that fail to resolve being dropped); on failure the handler logs and
calls `renderBoard()`, which repaints the DOM from the unchanged model. -/
def handleColumnDrop (st : EngineState) (draggedColumnId : Nat)
    (targetColumnId : Option Nat) (apiOk : Bool) : EngineState × List Action :=
  match targetColumnId with
  | none => (st, [])
  | some t =>
    if t == draggedColumnId then (st, [])
    else
      let dom2 := moveByKey (fun dc => dc.id) st.dom draggedColumnId t
      let newOrder := assignOrders (dom2.map (fun dc => dc.id))
      if apiOk then
        ({ columns := (newOrder.map
              (fun o => st.columns.find? (fun c => c.id == o.1))).reduceOption,
           dom := dom2 },
         [Action.reorderColumnsCall newOrder])
      else
        ({ columns := st.columns, dom := renderBoard st.columns },
         [Action.reorderColumnsCall newOrder, Action.logError, Action.renderBoardCall])

/-- A user gesture dragging task `draggedTaskId` onto task `targetTaskId`
within column `columnId`. -/
structure ReorderOp where
  columnId : Nat
  draggedTaskId : Nat
  targetTaskId : Nat
deriving Repr, DecidableEq

/-- Run a sequence of within-column reorder gestures whose API calls all
succeed, each through the drop handler. -/
def applyReorderOps (st : EngineState) : List ReorderOp → EngineState
  | [] => st
  | op :: ops =>
    applyReorderOps
      (handleTaskDrop st ⟨op.draggedTaskId, op.columnId⟩
        (some op.columnId) (some op.targetTaskId) true).1 ops

/-- The settled-state well-formedness: the DOM is exactly the rendering of
the Board Model (so each column's model task list matches its DOM order),
and no column holds two task elements with the same id.  `loadBoard` +
`renderBoard` establish this. -/
def SettledWF (st : EngineState) : Prop :=
  st.dom = renderBoard st.columns ∧
  ∀ c ∈ st.columns, (c.tasks.map (fun tk => tk.id)).Nodup

/-- The `MAX_COLUMNS` constant of board.js (line 18). -/
def MAX_COLUMNS : Nat := 12

/-- Result of clicking the add-column button (board.js lines 505-508):
either the guard fires the alert, or the column-creation modal opens (the
only flow from which `api.createColumn` is reachable). -/
inductive AddColumnClick where
  | alertMaxReached
  | openCreateDialog
deriving Repr, DecidableEq

/-- The add-column click handler: `if (columns.length >= MAX_COLUMNS) { alert(…); return; } openModal(columnModal);`. -/
def addColumnBtnClick (columns : List Column) : AddColumnClick :=
  if columns.length ≥ MAX_COLUMNS then AddColumnClick.alertMaxReached
  else AddColumnClick.openCreateDialog

/-- The `disabled` flag set on the add-column button by
`updateColumnLimitUI()` (board.js lines 69-77), invoked by every
`renderBoard()`. -/
def addColumnBtnDisabled (columns : List Column) : Bool :=
  columns.length ≥ MAX_COLUMNS

/-- The JSON body of the POST issued by `api.createTask` (api.js lines
193-202).  JS is untyped, so the `title` and `column_id` fields carry
whatever values the caller passes positionally. -/
structure CreateTaskBody (α β : Type) where
  title : α
  column_id : β
  description : Option String
deriving Repr

/-- The body builder of `api.createTask(title, columnId, description = '')`:
`{ title, column_id: columnId }`, plus `description` when truthy. -/
def createTask (title : α) (column_id : β) (description : String) :
    CreateTaskBody α β :=
  { title := title, column_id := column_id,
    description := if description = "" then none else some description }

/-- The task-form submit handler (board.js lines 530-543): read the trimmed
form field values (`….value.trim()`, applied at the DOM boundary), bail out
on an empty title, then call `api.createTask(columnId, title, description)`
with the selected column id in the first position. -/
def taskFormSubmit (columnId : Nat) (title description : String) :
    Option (CreateTaskBody Nat String) :=
  if title = "" then none
  else some (createTask columnId title description)

/-- The browser `localStorage` slice the API client uses. -/
structure Storage where
  auth_token : Option String
deriving Repr, DecidableEq

/-- The `clearToken()` helper: `localStorage.removeItem('auth_token')`. -/
def clearToken (s : Storage) : Storage :=
  { s with auth_token := none }

/-- The `getToken()` helper: `localStorage.getItem('auth_token')`. -/
def getToken (s : Storage) : Option String :=
  s.auth_token

/-- The `isAuthenticated()` helper: `!!getToken()`. -/
def isAuthenticated (s : Storage) : Bool :=
  (getToken s).isSome

/-- Outcomes of the `apiRequest('/auth/logout/')` round trip relevant to the
token: success, a 401 (which clears the token inside `apiRequest` before
throwing), or any other thrown error. -/
inductive LogoutOutcome where
  | success
  | unauthorized
  | otherError
deriving Repr, DecidableEq

/-- Token effect of one `apiRequest` call (api.js lines 57-63): a 401
response clears the stored token; every other path leaves storage alone. -/
def apiRequestTokenEffect (s : Storage) : LogoutOutcome → Storage
  | LogoutOutcome.unauthorized => clearToken s
  | _ => s

/-- The `api.logout` method (api.js lines 145-153): try the logout endpoint,
ignore any error, and clear the token in the `finally` block. -/
def logout (s : Storage) (outcome : LogoutOutcome) : Storage :=
  clearToken (apiRequestTokenEffect s outcome)

/-- A one-column board used to exercise the within-column reorder scenario:
column 10 holds tasks 1, 2, 3 with positions 1, 2, 3, and the DOM is the
rendering of the model. -/
def boardThreeTasks : EngineState :=
  ⟨[⟨10, "todo", 1, [⟨1, 1, 10⟩, ⟨2, 2, 10⟩, ⟨3, 3, 10⟩]⟩],
   renderBoard [⟨10, "todo", 1, [⟨1, 1, 10⟩, ⟨2, 2, 10⟩, ⟨3, 3, 10⟩]⟩]⟩

/-- A one-column board (column 4, tasks 21, 22, 23) used to show that a
successful reorder leaves the stored position fields stale. -/
def boardStalePositions : EngineState :=
  ⟨[⟨4, "doing", 1, [⟨21, 1, 4⟩, ⟨22, 2, 4⟩, ⟨23, 3, 4⟩]⟩,
    ⟨5, "done", 2, [⟨31, 1, 5⟩]⟩],
   renderBoard [⟨4, "doing", 1, [⟨21, 1, 4⟩, ⟨22, 2, 4⟩, ⟨23, 3, 4⟩]⟩,
    ⟨5, "done", 2, [⟨31, 1, 5⟩]⟩]⟩

/-- A two-column board (column 1 with one task, column 2 empty) used for the
column-drop failure scenario. -/
def boardTwoColumns : EngineState :=
  ⟨[⟨1, "A", 1, [⟨100, 1, 1⟩]⟩, ⟨2, "B", 2, []⟩],
   renderBoard [⟨1, "A", 1, [⟨100, 1, 1⟩]⟩, ⟨2, "B", 2, []⟩]⟩

/-- A one-column board used to exhibit a failing reorderTasks call. -/
def boardReorderPair : EngineState :=
  ⟨[⟨6, "col", 1, [⟨41, 1, 6⟩, ⟨42, 2, 6⟩]⟩],
   renderBoard [⟨6, "col", 1, [⟨41, 1, 6⟩, ⟨42, 2, 6⟩]⟩]⟩

/-- A two-column board (source column 1 holding task 100, empty destination
column 2) for the cross-column move scenario. -/
def boardMovePair : EngineState :=
  ⟨[⟨1, "A", 1, [⟨100, 1, 1⟩]⟩, ⟨2, "B", 2, []⟩],
   renderBoard [⟨1, "A", 1, [⟨100, 1, 1⟩]⟩, ⟨2, "B", 2, []⟩]⟩

/-- A two-column board with tasks in both columns, for the column-reorder
success scenario. -/
def boardColumnsPair : EngineState :=
  ⟨[⟨1, "left", 1, [⟨100, 1, 1⟩]⟩, ⟨2, "right", 2, [⟨200, 1, 2⟩, ⟨201, 2, 2⟩]⟩],
   renderBoard [⟨1, "left", 1, [⟨100, 1, 1⟩]⟩, ⟨2, "right", 2, [⟨200, 1, 2⟩, ⟨201, 2, 2⟩]⟩]⟩

end Kanban

namespace Kanban

lemma sortInsert_perm (le : α → α → Bool) (a : α) (l : List α) :
    List.Perm (sortInsert le a l) (a :: l) := by
  induction l with
  | nil => simp [sortInsert]
  | cons b l ih =>
    by_cases h : le b a
    · simp only [sortInsert, h, if_true]
      exact (ih.cons b).trans (List.Perm.swap a b l)
    · simp [sortInsert, h]

lemma foldl_sortInsert_perm (le : α → α → Bool) (l acc : List α) :
    List.Perm (l.foldl (fun acc a => sortInsert le a acc) acc) (acc ++ l) := by
  induction l generalizing acc with
  | nil => simp
  | cons a l ih =>
    rw [List.foldl_cons]
    refine (ih _).trans ?_
    refine ((sortInsert_perm le a acc).append_right l).trans ?_
    exact List.perm_middle.symm

lemma sortBy_perm (le : α → α → Bool) (l : List α) :
    List.Perm (sortBy le l) l := by
  simpa [sortBy] using foldl_sortInsert_perm le l []

lemma sortInsert_sorted {le : α → α → Bool}
    (htrans : ∀ a b c, le a b → le b c → le a c)
    (htotal : ∀ a b, le a b || le b a)
    {l : List α} (a : α) (hs : l.Pairwise (fun x y => le x y)) :
    (sortInsert le a l).Pairwise (fun x y => le x y) := by
  induction l with
  | nil => simp [sortInsert]
  | cons b l ih =>
    rcases List.pairwise_cons.mp hs with ⟨hb, hl⟩
    by_cases h : le b a
    · simp only [sortInsert, h, if_true]
      refine List.pairwise_cons.mpr ⟨?_, ih hl⟩
      intro x hx
      rcases List.mem_cons.mp ((sortInsert_perm le a l).mem_iff.mp hx) with hxa | hxl
      · exact hxa ▸ h
      · exact hb x hxl
    · simp only [sortInsert, h, Bool.false_eq_true, if_false]
      have hab : le a b := by
        rcases Bool.or_eq_true_iff.mp (htotal a b) with h1 | h1
        · exact h1
        · exact absurd h1 h
      refine List.pairwise_cons.mpr ⟨?_, hs⟩
      intro x hx
      rcases List.mem_cons.mp hx with rfl | hxl
      · exact hab
      · exact htrans a b x hab (hb x hxl)

lemma foldl_sortInsert_sorted {le : α → α → Bool}
    (htrans : ∀ a b c, le a b → le b c → le a c)
    (htotal : ∀ a b, le a b || le b a)
    (l : List α) {acc : List α} (hacc : acc.Pairwise (fun x y => le x y)) :
    (l.foldl (fun acc a => sortInsert le a acc) acc).Pairwise
      (fun x y => le x y) := by
  induction l generalizing acc with
  | nil => simpa using hacc
  | cons a l ih =>
    rw [List.foldl_cons]
    exact ih (sortInsert_sorted htrans htotal a hacc)

lemma sortBy_sorted {le : α → α → Bool}
    (htrans : ∀ a b c, le a b → le b c → le a c)
    (htotal : ∀ a b, le a b || le b a)
    (l : List α) : (sortBy le l).Pairwise (fun x y => le x y) := by
  simpa [sortBy] using foldl_sortInsert_sorted htrans htotal l List.Pairwise.nil

lemma insertBeforeP_perm (p : α → Bool) (x : α) (l : List α) :
    List.Perm (insertBeforeP p x l) (x :: l) := by
  induction l with
  | nil => simp [insertBeforeP]
  | cons a l ih =>
    by_cases h : p a
    · simp [insertBeforeP, h]
    · simp only [insertBeforeP, h, if_neg, Bool.false_eq_true, if_false]
      exact (ih.cons a).trans (List.Perm.swap x a l)

lemma insertAfterP_perm (p : α → Bool) (x : α) (l : List α) :
    List.Perm (insertAfterP p x l) (x :: l) := by
  induction l with
  | nil => simp [insertAfterP]
  | cons a l ih =>
    by_cases h : p a
    · simp only [insertAfterP, h, if_true]
      exact List.Perm.swap x a l
    · simp only [insertAfterP, h, Bool.false_eq_true, if_false]
      exact (ih.cons a).trans (List.Perm.swap x a l)

lemma cons_eraseP_perm (p : α → Bool) {l : List α} {a : α}
    (h : l.find? p = some a) : List.Perm (a :: l.eraseP p) l := by
  induction l with
  | nil => simp at h
  | cons b l ih =>
    by_cases hb : p b
    · rw [List.find?_cons_of_pos _ hb] at h
      cases h
      rw [List.eraseP_cons_of_pos hb]
    · rw [List.find?_cons_of_neg _ hb] at h
      rw [List.eraseP_cons_of_neg hb]
      exact (List.Perm.swap b a _).trans ((ih h).cons b)

lemma moveByKey_perm (k : α → Nat) (l : List α) (d t : Nat) :
    List.Perm (moveByKey k l d t) l := by
  unfold moveByKey
  cases h : l.find? (fun a => k a == d) with
  | none => exact List.Perm.refl l
  | some da =>
    simp only
    split
    · exact (insertAfterP_perm _ _ _).trans (cons_eraseP_perm _ h)
    · exact (insertBeforeP_perm _ _ _).trans (cons_eraseP_perm _ h)

lemma orderLookup_assignOrdersFrom_gt {l : List Nat} {j : Nat} (n : Nat)
    (hj : j ∈ l) : n < orderLookup (assignOrdersFrom n l) j := by
  induction l generalizing n with
  | nil => simp at hj
  | cons i l ih =>
    by_cases hij : i = j
    · subst hij
      simp [orderLookup, assignOrdersFrom]
    · rcases List.mem_cons.mp hj with h | h
      · exact absurd h.symm hij
      · have : orderLookup (assignOrdersFrom n (i :: l)) j
            = orderLookup (assignOrdersFrom (n + 1) l) j := by
          simp [orderLookup, assignOrdersFrom, List.find?_cons, hij]
        rw [this]
        exact Nat.lt_of_succ_lt (ih (n + 1) h)

lemma orderLookup_assignOrdersFrom_head (n i : Nat) (l : List Nat) :
    orderLookup (assignOrdersFrom n (i :: l)) i = n + 1 := by
  simp [orderLookup, assignOrdersFrom]

lemma orderLookup_assignOrdersFrom_pairwise (n : Nat) {l : List Nat}
    (hnd : l.Nodup) :
    l.Pairwise (fun i j => orderLookup (assignOrdersFrom n l) i
      < orderLookup (assignOrdersFrom n l) j) := by
  induction l generalizing n with
  | nil => exact List.Pairwise.nil
  | cons i l ih =>
    have hni : i ∉ l := (List.nodup_cons.mp hnd).1
    have hndl : l.Nodup := (List.nodup_cons.mp hnd).2
    have hlk : ∀ j ∈ l, orderLookup (assignOrdersFrom n (i :: l)) j
        = orderLookup (assignOrdersFrom (n + 1) l) j := by
      intro j hj
      have hij : i ≠ j := fun h => hni (h ▸ hj)
      simp [orderLookup, assignOrdersFrom, List.find?_cons, hij]
    refine List.Pairwise.cons ?_ ?_
    · intro j hj
      rw [orderLookup_assignOrdersFrom_head, hlk j hj]
      exact orderLookup_assignOrdersFrom_gt (n + 1) hj
    · refine (ih (n + 1) hndl).imp_of_mem ?_
      intro a b ha hb hab
      rwa [hlk a ha, hlk b hb]

lemma assignOrdersFrom_fst (n : Nat) (l : List Nat) :
    (assignOrdersFrom n l).map Prod.fst = l := by
  induction l generalizing n with
  | nil => rfl
  | cons i l ih => simp [assignOrdersFrom, ih]

lemma assignOrdersFrom_snd (n : Nat) (l : List Nat) :
    (assignOrdersFrom n l).map Prod.snd = List.range' (n + 1) l.length := by
  induction l generalizing n with
  | nil => rfl
  | cons i l ih => simp [assignOrdersFrom, ih, List.range'_succ]

end Kanban

namespace Kanban

/-- Sorting a task list by the orders that `assignOrders ids` attached to
distinct ids arranges the tasks exactly in the order of `ids`: the model
column ends up matching the DOM order that was submitted. -/
lemma sortBy_map_id_eq {tasks : List Task} {ids : List Nat}
    (hperm : List.Perm (tasks.map (fun tk => tk.id)) ids) (hnd : ids.Nodup) :
    ((sortBy (fun a b =>
      decide (orderLookup (assignOrders ids) a.id ≤ orderLookup (assignOrders ids) b.id)) tasks).map
        (fun tk => tk.id)) = ids := by
  set lk : Nat → Nat := orderLookup (assignOrders ids) with hlk
  set le : Task → Task → Bool := fun a b => decide (lk a.id ≤ lk b.id) with hle
  have hp1 : List.Perm (sortBy le tasks) tasks := sortBy_perm le tasks
  have hpids : List.Perm ((sortBy le tasks).map (fun tk => tk.id)) ids :=
    (hp1.map _).trans hperm
  have hsorted : (sortBy le tasks).Pairwise (fun a b => le a b) :=
    sortBy_sorted
      (fun a b c hab hbc => by
        simp only [hle, decide_eq_true_eq] at hab hbc ⊢
        omega)
      (fun a b => by
        simp only [hle]
        by_cases h : lk a.id ≤ lk b.id
        · simp [h]
        · simp only [h]
          have : lk b.id ≤ lk a.id := Nat.le_of_lt (Nat.lt_of_not_le h)
          simp [this])
      tasks
  have hsorted2 : ((sortBy le tasks).map (fun tk => tk.id)).Pairwise
      (fun i j => lk i ≤ lk j) := by
    rw [List.pairwise_map]
    refine hsorted.imp ?_
    intro a b h
    simpa [hle, decide_eq_true_eq] using h
  have hpw : ids.Pairwise (fun i j => lk i < lk j) :=
    orderLookup_assignOrdersFrom_pairwise 0 hnd
  have hinj : ∀ i ∈ ids, ∀ j ∈ ids, i ≠ j → lk i ≠ lk j := by
    have hne : ids.Pairwise (fun i j => lk i ≠ lk j) :=
      hpw.imp (fun h => Nat.ne_of_lt h)
    intro i hi j hj hij
    exact List.Pairwise.forall (fun a b h => h.symm) hne hi hj hij
  have hndres : ((sortBy le tasks).map (fun tk => tk.id)).Nodup :=
    hpids.nodup_iff.mpr hnd
  have hsorted3 : ((sortBy le tasks).map (fun tk => tk.id)).Pairwise
      (fun i j => lk i < lk j) := by
    refine ((hsorted2.and hndres).imp_of_mem ?_)
    intro i j hi hj h
    have hi2 : i ∈ ids := hpids.mem_iff.mp hi
    have hj2 : j ∈ ids := hpids.mem_iff.mp hj
    exact Nat.lt_of_le_of_ne h.1 (hinj i hi2 j hj2 h.2)
  haveI : IsAntisymm Nat (fun i j => lk i < lk j) :=
    ⟨fun a b h1 h2 => absurd h2 (Nat.lt_asymm h1)⟩
  exact List.eq_of_perm_of_sorted hpids hsorted3 hpw

end Kanban

namespace Kanban

lemma find?_renderBoard (cols : List Column) (x : Nat) :
    (renderBoard cols).find? (fun dc => dc.id == x)
      = (cols.find? (fun c => c.id == x)).map
          (fun c => ⟨c.id, c.tasks.map (fun tk => tk.id)⟩) := by
  rw [renderBoard, List.find?_map]
  rfl

lemma updateFirst_map_comm (r : α → β) (p : α → Bool) (q : β → Bool)
    (f : α → α) (g : β → β) (l : List α)
    (hpq : ∀ a, q (r a) = p a)
    (hcomm : ∀ a, l.find? p = some a → r (f a) = g (r a)) :
    updateFirst q g (l.map r) = (updateFirst p f l).map r := by
  induction l with
  | nil => rfl
  | cons a l ih =>
    by_cases h : p a
    · have := hcomm a (List.find?_cons_of_pos _ h)
      simp [updateFirst, hpq, h, this]
    · have hq : q (r a) = false := by rw [hpq]; exact eq_false_of_ne_true (by simpa using h)
      simp only [List.map_cons, updateFirst, hq, Bool.false_eq_true, if_false,
        h, List.map_cons]
      rw [ih]
      intro b hb
      exact hcomm b (by rwa [List.find?_cons_of_neg _ (by simpa using h)])

lemma mem_updateFirst {p : α → Bool} {f : α → α} {l : List α} {x : α}
    (hx : x ∈ updateFirst p f l) : x ∈ l ∨ ∃ a ∈ l, x = f a := by
  induction l with
  | nil => simp [updateFirst] at hx
  | cons a l ih =>
    by_cases h : p a
    · simp only [updateFirst, h, if_true, List.mem_cons] at hx
      rcases hx with h1 | h1
      · exact Or.inr ⟨a, List.mem_cons_self a l, h1⟩
      · exact Or.inl (List.mem_cons_of_mem _ h1)
    · simp only [updateFirst, h, Bool.false_eq_true, if_false, List.mem_cons] at hx
      rcases hx with h1 | h1
      · exact Or.inl (h1 ▸ List.mem_cons_self a l)
      · rcases ih h1 with h2 | ⟨b, hb, h2⟩
        · exact Or.inl (List.mem_cons_of_mem _ h2)
        · exact Or.inr ⟨b, List.mem_cons_of_mem _ hb, h2⟩

/-- One successful within-column reorder keeps the Board Model aligned with
the DOM: after the drop handler's success path, the DOM is still exactly the
rendering of the model, and no column acquires duplicate task ids. -/
lemma reorderBranch_settled {st : EngineState} (d t colId : Nat)
    (h : SettledWF st) : SettledWF (reorderBranch st d t colId true).1 := by
  obtain ⟨hdom, hnd⟩ := h
  unfold reorderBranch
  cases hfind : st.dom.find? (fun dc => dc.id == colId) with
  | none => exact ⟨hdom, hnd⟩
  | some domCol =>
    rw [hdom, find?_renderBoard] at hfind
    cases hfindc : st.columns.find? (fun c => c.id == colId) with
    | none => rw [hfindc] at hfind; simp at hfind
    | some c0 =>
      rw [hfindc] at hfind
      simp only [Option.map_some'] at hfind
      cases hfind
      have hc0 : c0 ∈ st.columns := List.mem_of_find?_eq_some hfindc
      have hc0nd : (c0.tasks.map (fun tk => tk.id)).Nodup := hnd c0 hc0
      have hperm2 : List.Perm
          (moveByKey (fun i => i) (c0.tasks.map (fun tk => tk.id)) d t)
          (c0.tasks.map (fun tk => tk.id)) := moveByKey_perm _ _ d t
      have hndids : (moveByKey (fun i => i) (c0.tasks.map (fun tk => tk.id)) d t).Nodup :=
        hperm2.nodup_iff.mpr hc0nd
      simp only [reduceIte]
      refine ⟨?_, ?_⟩
      · show updateFirst (fun dc => dc.id == colId) _ st.dom
          = renderBoard (updateFirst (fun c => c.id == colId) _ st.columns)
        rw [hdom]
        unfold renderBoard
        refine updateFirst_map_comm _ _ _ _ _ st.columns (fun a => rfl) ?_
        intro a hfa
        rw [hfindc] at hfa
        cases hfa
        show (⟨c0.id, _⟩ : DomColumn) = ⟨c0.id, _⟩
        congr 1
        exact sortBy_map_id_eq hperm2.symm hndids
      · intro c hc
        rcases mem_updateFirst hc with h1 | ⟨a, ha, h1⟩
        · exact hnd c h1
        · subst h1
          have hms : List.Perm
              (((sortBy (fun x y =>
                decide (orderLookup (assignOrders (moveByKey (fun i => i)
                    (c0.tasks.map (fun tk => tk.id)) d t)) x.id
                  ≤ orderLookup (assignOrders (moveByKey (fun i => i)
                    (c0.tasks.map (fun tk => tk.id)) d t)) y.id)) a.tasks)).map (fun tk => tk.id))
              (a.tasks.map (fun tk => tk.id)) :=
            (sortBy_perm _ a.tasks).map _
          exact hms.nodup_iff.mpr (hnd a ha)

end Kanban

namespace Kanban

lemma handleTaskDrop_reorder_settled {st : EngineState} (op : ReorderOp)
    (h : SettledWF st) :
    SettledWF (handleTaskDrop st ⟨op.draggedTaskId, op.columnId⟩
      (some op.columnId) (some op.targetTaskId) true).1 := by
  unfold handleTaskDrop
  simp only [beq_self_eq_true, if_true]
  by_cases ht : op.targetTaskId == op.draggedTaskId
  · simp only [ht, if_true]
    exact h
  · simp only [ht, Bool.false_eq_true, if_false]
    exact reorderBranch_settled _ _ _ h

/-- Settled well-formedness is preserved by any sequence of successful
within-column reorder gestures. -/
lemma applyReorderOps_settled {st : EngineState} (ops : List ReorderOp)
    (h : SettledWF st) : SettledWF (applyReorderOps st ops) := by
  induction ops generalizing st with
  | nil => exact h
  | cons op ops ih => exact ih (handleTaskDrop_reorder_settled op h)

lemma updateFirst_eq_map_of_nodup (key : α → Nat) (x : Nat) (f : α → α)
    (l : List α) (hnd : (l.map key).Nodup) :
    updateFirst (fun a => key a == x) f l
      = l.map (fun a => if key a == x then f a else a) := by
  induction l with
  | nil => rfl
  | cons a l ih =>
    rw [List.map_cons, List.nodup_cons] at hnd
    by_cases h : key a == x
    · have hx : key a = x := by simpa using h
      have : ∀ b ∈ l, (if key b == x then f b else b) = b := by
        intro b hb
        have hbx : key b ≠ x := by
          intro hbx
          refine hnd.1 ?_
          rw [hx, ← hbx]
          exact List.mem_map_of_mem key hb
        simp [hbx]
      simp only [updateFirst, h, if_true, List.map_cons]
      rw [List.map_congr_left this, List.map_id']
    · simp only [updateFirst, h, Bool.false_eq_true, if_false, List.map_cons]
      rw [ih hnd.2]

lemma countP_eraseP_of_countP_one {p : α → Bool} {l : List α}
    (h : l.countP p = 1) : (l.eraseP p).countP p = 0 := by
  induction l with
  | nil => simp at h
  | cons a l ih =>
    by_cases ha : p a
    · rw [List.countP_cons_of_pos _ _ ha] at h
      rw [List.eraseP_cons_of_pos ha]
      omega
    · rw [List.countP_cons_of_neg _ _ ha] at h
      rw [List.eraseP_cons_of_neg ha, List.countP_cons_of_neg _ _ ha]
      exact ih h

lemma find?_eq_self_of_nodup {cols : List Column}
    (hnd : (cols.map (fun c => c.id)).Nodup) {c : Column} (hc : c ∈ cols) :
    cols.find? (fun x => x.id == c.id) = some c := by
  induction cols with
  | nil => simp at hc
  | cons a l ih =>
    rw [List.map_cons, List.nodup_cons] at hnd
    rcases List.mem_cons.mp hc with h | h
    · subst h
      exact List.find?_cons_of_pos _ (by simp)
    · have hne : a.id ≠ c.id := by
        intro hx
        refine hnd.1 ?_
        rw [hx]
        exact List.mem_map_of_mem _ h
      rw [List.find?_cons_of_neg _ (by simpa using hne)]
      exact ih hnd.2 h

lemma reduceOption_map_some (l : List α) (g : α → β) :
    (l.map (fun x => some (g x))).reduceOption = l.map g := by
  induction l with
  | nil => rfl
  | cons a l ih =>
    rw [List.map_cons, List.reduceOption_cons_of_some, ih, List.map_cons]

end Kanban

namespace Kanban

/-- C1 (amended): for every sequence of successful within-column reorder
operations starting from a settled state, each column's task list in the
Board Model matches the DOM order of the column's task elements (the DOM
stays exactly the rendering of the model, with no duplicate ids), and every
submitted order payload assigns positions exactly 1..N in DOM order.  The
tasks' stored position fields are not rewritten by the reorder, so read in
DOM order they need not be ascending. -/
theorem reorder_sequences_model_matches_dom (st : EngineState)
    (ops : List ReorderOp) (h : SettledWF st) :
    SettledWF (applyReorderOps st ops) ∧
    ∀ ids : List Nat, (assignOrders ids).map Prod.snd = List.range' 1 ids.length :=
  ⟨applyReorderOps_settled ops h, fun ids => assignOrdersFrom_snd 0 ids⟩

/-- C1 witness: the invariant holds after a concrete two-step reorder chain. -/
theorem reorder_sequences_model_matches_dom_witness :
    SettledWF (applyReorderOps boardStalePositions [⟨4, 23, 21⟩, ⟨4, 22, 23⟩]) ∧
    ∀ ids : List Nat, (assignOrders ids).map Prod.snd = List.range' 1 ids.length :=
  reorder_sequences_model_matches_dom boardStalePositions [⟨4, 23, 21⟩, ⟨4, 22, 23⟩]
    ⟨rfl, by decide⟩

/-- C1 counterexample: after a confirmed-successful reorder (drag task 23
before task 21 in column 4) the stored position fields of the column, read
in model/DOM order, are 3, 1, 2 rather than the claimed contiguous ascending
1..N. -/
theorem reorder_success_position_fields_not_resequenced :
    ¬ (∀ c ∈ (applyReorderOps boardStalePositions [⟨4, 23, 21⟩]).columns,
        c.tasks.map (fun tk => tk.order) = List.range' 1 c.tasks.length) := by
  decide

/-- C2: when a within-column reorder's or a cross-column move's API call
rejects, the drop handler logs the error and triggers a full reload via
loadBoard, and the Board Model receives no partial patch (the column list is
exactly the pre-drop one). -/
theorem failed_task_drop_reloads_without_patch (st : EngineState)
    (dragged : DraggedTask) (dropColumnId targetTaskId : Option Nat)
    (h : (∃ o, Action.reorderTasksCall o
            ∈ (handleTaskDrop st dragged dropColumnId targetTaskId false).2)
       ∨ (∃ a b, Action.moveTaskCall a b
            ∈ (handleTaskDrop st dragged dropColumnId targetTaskId false).2)) :
    (handleTaskDrop st dragged dropColumnId targetTaskId false).1.columns = st.columns ∧
    Action.logError ∈ (handleTaskDrop st dragged dropColumnId targetTaskId false).2 ∧
    Action.loadBoardCall ∈ (handleTaskDrop st dragged dropColumnId targetTaskId false).2 := by
  unfold handleTaskDrop at *
  cases dropColumnId with
  | none => simp at h
  | some toId =>
    by_cases hc : dragged.columnId == toId
    · simp only [hc, if_true] at *
      cases targetTaskId with
      | none => simp at h
      | some t =>
        by_cases ht : t == dragged.taskId
        · simp [ht] at h
        · simp only [ht, Bool.false_eq_true, if_false] at *
          unfold reorderBranch at *
          cases hfind : st.dom.find? (fun dc => dc.id == toId) with
          | none =>
            rw [hfind] at h
            simp at h
          | some domCol => simp
    · simp only [hc, Bool.false_eq_true, if_false] at *
      unfold moveBranch at *
      simp

/-- C2 witness: a concrete failed reorder call leaves the model unpatched
and reloads. -/
theorem failed_task_drop_reloads_without_patch_witness :
    (handleTaskDrop boardReorderPair ⟨42, 6⟩ (some 6) (some 41) false).1.columns
        = boardReorderPair.columns ∧
    Action.logError ∈ (handleTaskDrop boardReorderPair ⟨42, 6⟩ (some 6) (some 41) false).2 ∧
    Action.loadBoardCall ∈ (handleTaskDrop boardReorderPair ⟨42, 6⟩ (some 6) (some 41) false).2 :=
  failed_task_drop_reloads_without_patch boardReorderPair ⟨42, 6⟩ (some 6) (some 41)
    (Or.inl ⟨[(42, 1), (41, 2)], by decide⟩)

/-- C3 (amended): when the reorderColumns API call rejects, the handler logs
the error and repairs the page by re-rendering the DOM from the in-memory
column list, which was never mutated; it performs a local-only rollback and
does not refetch the board via loadBoard/getBoard. -/
theorem failed_column_reorder_rerenders_locally (st : EngineState) (d t : Nat)
    (h : t ≠ d) :
    (handleColumnDrop st d (some t) false).1.columns = st.columns ∧
    (handleColumnDrop st d (some t) false).1.dom = renderBoard st.columns ∧
    Action.logError ∈ (handleColumnDrop st d (some t) false).2 ∧
    Action.renderBoardCall ∈ (handleColumnDrop st d (some t) false).2 ∧
    Action.loadBoardCall ∉ (handleColumnDrop st d (some t) false).2 := by
  have hb : (t == d) = false := by simpa using h
  unfold handleColumnDrop
  simp [hb]

/-- C3 witness: the local-rollback behaviour at a concrete failed column
reorder. -/
theorem failed_column_reorder_rerenders_locally_witness :
    (handleColumnDrop boardTwoColumns 1 (some 2) false).1.columns
        = boardTwoColumns.columns ∧
    (handleColumnDrop boardTwoColumns 1 (some 2) false).1.dom
        = renderBoard boardTwoColumns.columns ∧
    Action.logError ∈ (handleColumnDrop boardTwoColumns 1 (some 2) false).2 ∧
    Action.renderBoardCall ∈ (handleColumnDrop boardTwoColumns 1 (some 2) false).2 ∧
    Action.loadBoardCall ∉ (handleColumnDrop boardTwoColumns 1 (some 2) false).2 :=
  failed_column_reorder_rerenders_locally boardTwoColumns 1 2 (by decide)

/-- C3 counterexample: a concrete failed column reorder issues its
reorderColumns call but never calls loadBoard (no getBoard refetch); its
recovery action is renderBoard, a local re-render of the unchanged model. -/
theorem failed_column_reorder_does_not_reload :
    Action.reorderColumnsCall [(2, 1), (1, 2)]
        ∈ (handleColumnDrop boardTwoColumns 1 (some 2) false).2 ∧
    Action.loadBoardCall ∉ (handleColumnDrop boardTwoColumns 1 (some 2) false).2 ∧
    Action.renderBoardCall ∈ (handleColumnDrop boardTwoColumns 1 (some 2) false).2 := by
  decide

/-- C5 (amended): dragging T3 (id 3) before T1 (id 1) in the column holding
tasks 1, 2, 3 at positions 1, 2, 3, with a successful API call, submits the
pairs [(3,1), (1,2), (2,3)] and reorders the in-memory task list to
[T3, T1, T2]; the stored position fields of the tasks are not rewritten and
remain 3, 1, 2 in the new list order. -/
theorem reorder_scenario_payload_and_list_order :
    (handleTaskDrop boardThreeTasks ⟨3, 10⟩ (some 10) (some 1) true).2
        = [Action.reorderTasksCall [(3, 1), (1, 2), (2, 3)]] ∧
    ((handleTaskDrop boardThreeTasks ⟨3, 10⟩ (some 10) (some 1) true).1.columns.map
        (fun c => c.tasks.map (fun tk => (tk.id, tk.order))))
        = [[(3, 3), (1, 1), (2, 2)]] := by
  decide

/-- C5 counterexample: in that scenario the in-memory column's task list is
not [T3, T1, T2] with positions 1, 2, 3 — the position fields still read
3, 1, 2. -/
theorem reorder_scenario_positions_not_one_two_three :
    ¬ (((handleTaskDrop boardThreeTasks ⟨3, 10⟩ (some 10) (some 1) true).1.columns.map
        (fun c => c.tasks.map (fun tk => (tk.id, tk.order))))
        = [[(3, 1), (1, 2), (2, 3)]]) := by
  decide

/-- C7: dropping a dragged task onto itself, and dropping a dragged column
onto itself, each produce no API call and leave the Board Model and the DOM
completely unchanged, whatever the would-be API outcome. -/
theorem self_drop_is_noop (st : EngineState) (d colId : Nat) (apiOk : Bool) :
    handleTaskDrop st ⟨d, colId⟩ (some colId) (some d) apiOk = (st, []) ∧
    handleColumnDrop st d (some d) apiOk = (st, []) := by
  constructor
  · unfold handleTaskDrop
    simp
  · unfold handleColumnDrop
    simp

/-- C8: the task-creation POST body's title field equals the first argument
of api.createTask and its column_id field the second; the board's form
handler passes (columnId, title, description) in that order, so the body's
title carries the selected column id and column_id carries the entered
title. -/
theorem createTask_body_fields_swapped (columnId : Nat)
    (title description : String) (body : CreateTaskBody Nat String)
    (h : taskFormSubmit columnId title description = some body) :
    body = createTask columnId title description ∧
    body.title = columnId ∧ body.column_id = title := by
  unfold taskFormSubmit at h
  by_cases ht : title = ""
  · simp [ht] at h
  · simp only [ht, if_false] at h
    cases h
    exact ⟨rfl, rfl, rfl⟩

/-- C8 witness: submitting the form with column 7 and title "Buy milk"
produces a body whose title field is the column id 7 and whose column_id
field is the entered title string. -/
theorem createTask_body_fields_swapped_witness :
    (createTask 7 "Buy milk" "d" : CreateTaskBody Nat String)
        = createTask 7 "Buy milk" "d" ∧
    (createTask 7 "Buy milk" "d" : CreateTaskBody Nat String).title = 7 ∧
    (createTask 7 "Buy milk" "d" : CreateTaskBody Nat String).column_id
        = "Buy milk" :=
  createTask_body_fields_swapped 7 "Buy milk" "d" (createTask 7 "Buy milk" "d")
    (by simp [taskFormSubmit])

/-- C9: whenever the in-memory column list has 12 or more columns, clicking
the add-column button alerts instead of opening the creation dialog — the
only flow that reaches api.createColumn — and updateColumnLimitUI disables
the button on every render. -/
theorem max_columns_blocks_creation (columns : List Column)
    (h : MAX_COLUMNS ≤ columns.length) :
    addColumnBtnClick columns = AddColumnClick.alertMaxReached ∧
    addColumnBtnDisabled columns = true := by
  constructor
  · unfold addColumnBtnClick
    simp only [ge_iff_le, h, if_true]
  · unfold addColumnBtnDisabled
    simp [h]

/-- C9 witness: a board with exactly 12 columns blocks the creation flow. -/
theorem max_columns_blocks_creation_witness :
    addColumnBtnClick (List.replicate 12 (⟨0, "", 0, []⟩ : Column))
        = AddColumnClick.alertMaxReached ∧
    addColumnBtnDisabled (List.replicate 12 (⟨0, "", 0, []⟩ : Column)) = true :=
  max_columns_blocks_creation (List.replicate 12 ⟨0, "", 0, []⟩) (by decide)

/-- C10: api.logout removes the stored auth token whether the logout request
succeeds, is rejected with 401, or fails with any other error, so
isAuthenticated is false afterwards. -/
theorem logout_always_clears_token (s : Storage) (outcome : LogoutOutcome) :
    getToken (logout s outcome) = none ∧
    isAuthenticated (logout s outcome) = false := by
  cases outcome <;>
    simp [logout, clearToken, apiRequestTokenEffect, getToken, isAuthenticated]

end Kanban

namespace Kanban

lemma reduceOption_map_some_id (l : List α) :
    ((l.map (fun a => some a)).reduceOption) = l := by
  induction l with
  | nil => rfl
  | cons a l ih => rw [List.map_cons, List.reduceOption_cons_of_some, ih]

lemma lookup_by_id_map_id {cols : List Column} {ids : List Nat}
    (h : ∀ i ∈ ids, ∃ c ∈ cols, c.id = i) :
    (((ids.map (fun i => cols.find? (fun c => c.id == i))).reduceOption).map
      (fun c => c.id)) = ids := by
  induction ids with
  | nil => rfl
  | cons i ids ih =>
    obtain ⟨c, hc, hcid⟩ := h i (List.mem_cons_self i ids)
    have hsome : (cols.find? (fun x => x.id == i)).isSome :=
      List.find?_isSome.mpr ⟨c, hc, by simp [hcid]⟩
    obtain ⟨c1, hc1⟩ := Option.isSome_iff_exists.mp hsome
    have hc1id : c1.id = i := by simpa using List.find?_some hc1
    rw [List.map_cons, hc1, List.reduceOption_cons_of_some, List.map_cons, hc1id,
      ih (fun j hj => h j (List.mem_cons_of_mem _ hj))]

lemma lookup_by_id_perm {cols : List Column} {ids : List Nat}
    (hnd : (cols.map (fun c => c.id)).Nodup)
    (hperm : List.Perm ids (cols.map (fun c => c.id))) :
    List.Perm ((ids.map (fun i => cols.find? (fun c => c.id == i))).reduceOption)
      cols := by
  have h2 : (cols.map (fun c => c.id)).map (fun i => cols.find? (fun c => c.id == i))
      = cols.map (fun c => some c) := by
    rw [List.map_map]
    refine List.map_congr_left ?_
    intro c hc
    exact find?_eq_self_of_nodup hnd hc
  have h4 : List.Perm (ids.map (fun i => cols.find? (fun c => c.id == i)))
      (cols.map (fun c => some c)) := by
    rw [← h2]
    exact hperm.map _
  have h5 := h4.filterMap id
  rw [show ((cols.map (fun c => some c)).filterMap id) = cols
    from reduceOption_map_some_id cols] at h5
  exact h5

end Kanban

namespace Kanban

lemma assignOrders_fst (l : List Nat) : (assignOrders l).map Prod.fst = l :=
  assignOrdersFrom_fst 0 l

/-- C6: when the reorderColumns API call succeeds, the in-memory column list
is rebuilt to follow the submitted (server-confirmed) order by looking up
each full Column object by its id, so the new list carries exactly the
submitted ids in order and is a permutation of the old list — every
column's nested task list rides along unchanged. -/
theorem column_reorder_success_preserves_tasks (st : EngineState) (d t : Nat)
    (hne : t ≠ d)
    (hnd : (st.columns.map (fun c => c.id)).Nodup)
    (hdom : st.dom.map (fun dc => dc.id) = st.columns.map (fun c => c.id)) :
    ∃ ord, (handleColumnDrop st d (some t) true).2 = [Action.reorderColumnsCall ord] ∧
      ((handleColumnDrop st d (some t) true).1.columns.map (fun c => c.id))
          = ord.map Prod.fst ∧
      List.Perm ((handleColumnDrop st d (some t) true).1.columns) st.columns := by
  have hb : (t == d) = false := by simpa using hne
  have hperm2 : List.Perm
      ((moveByKey (fun dc => dc.id) st.dom d t).map (fun dc => dc.id))
      (st.columns.map (fun c => c.id)) := by
    rw [← hdom]
    exact (moveByKey_perm _ st.dom d t).map _
  have hmem : ∀ i ∈ (moveByKey (fun dc => dc.id) st.dom d t).map (fun dc => dc.id),
      ∃ c ∈ st.columns, c.id = i := by
    intro i hi
    have : i ∈ st.columns.map (fun c => c.id) := hperm2.mem_iff.mp hi
    obtain ⟨c, hc, hcid⟩ := List.mem_map.mp this
    exact ⟨c, hc, hcid⟩
  have hbridge : ∀ ids : List Nat,
      (assignOrders ids).map (fun o => st.columns.find? (fun c => c.id == o.1))
        = ((assignOrders ids).map Prod.fst).map
            (fun i => st.columns.find? (fun c => c.id == i)) := by
    intro ids
    rw [List.map_map]
    rfl
  unfold handleColumnDrop
  simp only [hb, Bool.false_eq_true, if_false, reduceIte]
  refine ⟨_, rfl, ?_, ?_⟩
  · rw [hbridge, assignOrders_fst]
    exact lookup_by_id_map_id hmem
  · rw [hbridge, assignOrders_fst]
    exact lookup_by_id_perm hnd hperm2

end Kanban

namespace Kanban

lemma updateFirst_cols_eq_map (x : Nat) (f : Column → Column) (cols : List Column)
    (hnd : (cols.map (fun c => c.id)).Nodup) :
    updateFirst (fun c => c.id == x) f cols
      = cols.map (fun c => if c.id == x then f c else c) :=
  updateFirst_eq_map_of_nodup (fun c => c.id) x f cols hnd

/-- C4: a successful cross-column move removes the task from the source
column's list and appends it to the destination's list exactly once (it
appears in no other column, is neither duplicated nor lost), with the
task's owning-column field updated to the destination id and every other
column untouched. -/
theorem move_task_success_exactly_once (st : EngineState) (T fromId toId : Nat)
    (tgt : Option Nat)
    (hne : fromId ≠ toId)
    (hnd : (st.columns.map (fun c => c.id)).Nodup)
    (hfrom : fromId ∈ st.columns.map (fun c => c.id))
    (hto : toId ∈ st.columns.map (fun c => c.id))
    (hcnt : ∀ c ∈ st.columns,
      c.tasks.countP (fun tk => tk.id == T) = if c.id = fromId then 1 else 0) :
    (((handleTaskDrop st ⟨T, fromId⟩ (some toId) tgt true).1.columns.map
        (fun c => c.id)) = st.columns.map (fun c => c.id)) ∧
    (∀ c ∈ (handleTaskDrop st ⟨T, fromId⟩ (some toId) tgt true).1.columns,
      c.tasks.countP (fun tk => tk.id == T) = if c.id = toId then 1 else 0) ∧
    (∀ c ∈ (handleTaskDrop st ⟨T, fromId⟩ (some toId) tgt true).1.columns,
      c.id = toId → ∃ tk, c.tasks.getLast? = some tk ∧ tk.id = T ∧ tk.column = toId) ∧
    (∀ c ∈ (handleTaskDrop st ⟨T, fromId⟩ (some toId) tgt true).1.columns,
      c.id ≠ fromId → c.id ≠ toId → c ∈ st.columns) := by
  have hbeq : (fromId == toId) = false := by simpa using hne
  have hcols : (handleTaskDrop st ⟨T, fromId⟩ (some toId) tgt true).1.columns
      = moveTaskModel st.columns T fromId toId := by
    unfold handleTaskDrop moveBranch
    simp [hbeq]
  obtain ⟨A, hAmem, hAid⟩ := List.mem_map.mp hfrom
  have hAfind : st.columns.find? (fun c => c.id == fromId) = some A := by
    rw [← hAid]
    exact find?_eq_self_of_nodup hnd hAmem
  obtain ⟨B, hBmem, hBid⟩ := List.mem_map.mp hto
  have hBfind : st.columns.find? (fun c => c.id == toId) = some B := by
    rw [← hBid]
    exact find?_eq_self_of_nodup hnd hBmem
  have hAcnt : A.tasks.countP (fun tk => tk.id == T) = 1 := by
    have h1 := hcnt A hAmem
    rwa [if_pos hAid] at h1
  have hx : ∃ x ∈ A.tasks, (x.id == T) = true := by
    refine List.countP_pos_iff.mp ?_
    rw [hAcnt]
    decide
  obtain ⟨x, hxmem, hxid⟩ := hx
  have hsome : (A.tasks.find? (fun tk => tk.id == T)).isSome :=
    List.find?_isSome.mpr ⟨x, hxmem, hxid⟩
  obtain ⟨tk0, htk⟩ := Option.isSome_iff_exists.mp hsome
  have htk0id : tk0.id = T := by simpa using List.find?_some htk
  have hmtm : moveTaskModel st.columns T fromId toId
      = updateFirst (fun c => c.id == toId)
          (fun c => { c with tasks := c.tasks ++ [{ tk0 with column := toId }] })
          (updateFirst (fun c => c.id == fromId)
            (fun c => { c with tasks := c.tasks.eraseP (fun y => y.id == T) })
            st.columns) := by
    unfold moveTaskModel
    rw [hAfind, hBfind]
    dsimp only
    rw [htk]
  have hmap1 : updateFirst (fun c => c.id == fromId)
        (fun c => { c with tasks := c.tasks.eraseP (fun y => y.id == T) })
        st.columns
      = st.columns.map (fun c => if c.id == fromId
          then { c with tasks := c.tasks.eraseP (fun y => y.id == T) } else c) :=
    updateFirst_cols_eq_map fromId _ st.columns hnd
  have hidpres : (st.columns.map (fun c => if c.id == fromId
        then { c with tasks := c.tasks.eraseP (fun y => y.id == T) } else c)).map
          (fun c => c.id)
      = st.columns.map (fun c => c.id) := by
    rw [List.map_map]
    refine List.map_congr_left ?_
    intro c hc
    by_cases h : c.id == fromId <;> simp [h, Function.comp]
  have hnd2 : ((st.columns.map (fun c => if c.id == fromId
        then { c with tasks := c.tasks.eraseP (fun y => y.id == T) } else c)).map
          (fun c => c.id)).Nodup := by
    rw [hidpres]
    exact hnd
  have hmap2 : updateFirst (fun c => c.id == toId)
        (fun c => { c with tasks := c.tasks ++ [{ tk0 with column := toId }] })
        (st.columns.map (fun c => if c.id == fromId
          then { c with tasks := c.tasks.eraseP (fun y => y.id == T) } else c))
      = (st.columns.map (fun c => if c.id == fromId
          then { c with tasks := c.tasks.eraseP (fun y => y.id == T) } else c)).map
          (fun c => if c.id == toId
            then { c with tasks := c.tasks ++ [{ tk0 with column := toId }] } else c) :=
    updateFirst_cols_eq_map toId _ _ hnd2
  rw [hcols, hmtm, hmap1, hmap2]
  simp only [List.map_map]
  refine ⟨?_, ?_, ?_, ?_⟩
  · refine List.map_congr_left ?_
    intro c hc
    by_cases h1 : c.id == fromId <;> by_cases h2 : c.id == toId <;>
      simp [h1, h2, Function.comp]
  · intro c' hc'
    obtain ⟨c, hc, rfl⟩ := List.mem_map.mp hc'
    by_cases h1 : c.id == fromId
    · have h1eq : c.id = fromId := by simpa using h1
      have h2 : (c.id == toId) = false := by
        simp [h1eq]
        exact hne
      simp only [Function.comp, h1, if_true, h2, Bool.false_eq_true, if_false]
      have hcz := hcnt c hc
      rw [if_pos h1eq] at hcz
      rw [if_neg (by rw [h1eq]; exact hne)]
      exact countP_eraseP_of_countP_one hcz
    · have h1eq : c.id ≠ fromId := by simpa using h1
      have hcz := hcnt c hc
      rw [if_neg h1eq] at hcz
      by_cases h2 : c.id == toId
      · have h2eq : c.id = toId := by simpa using h2
        simp only [Function.comp, h1, Bool.false_eq_true, if_false, h2, if_true]
        rw [if_pos h2eq, List.countP_append, hcz]
        simp [htk0id]
      · have h2eq : c.id ≠ toId := by simpa using h2
        simp only [Function.comp, h1, h2, Bool.false_eq_true, if_false]
        rw [if_neg h2eq]
        exact hcz
  · intro c' hc' hcid
    obtain ⟨c, hc, rfl⟩ := List.mem_map.mp hc'
    by_cases h1 : c.id == fromId
    · have h1eq : c.id = fromId := by simpa using h1
      exfalso
      apply hne
      rw [← h1eq]
      simpa [Function.comp, h1, (by simp [h1eq]; exact hne : (c.id == toId) = false)]
        using hcid
    · by_cases h2 : c.id == toId
      · simp only [Function.comp, h1, Bool.false_eq_true, if_false, h2, if_true]
        refine ⟨{ tk0 with column := toId }, ?_, htk0id, rfl⟩
        exact List.getLast?_concat _
      · exfalso
        simp only [Function.comp, h1, h2, Bool.false_eq_true, if_false] at hcid
        exact absurd hcid (by simpa using h2)
  · intro c' hc' hfrom' hto'
    obtain ⟨c, hc, rfl⟩ := List.mem_map.mp hc'
    by_cases h1 : c.id == fromId
    · exfalso
      have h1eq : c.id = fromId := by simpa using h1
      have h2 : (c.id == toId) = false := by simp [h1eq]; exact hne
      simp only [Function.comp, h1, if_true, h2, Bool.false_eq_true, if_false] at hfrom'
      exact hfrom' h1eq
    · by_cases h2 : c.id == toId
      · exfalso
        simp only [Function.comp, h1, Bool.false_eq_true, if_false, h2, if_true] at hto'
        exact hto' (by simpa using h2)
      · simp only [Function.comp, h1, h2, Bool.false_eq_true, if_false]
        exact hc

end Kanban

namespace Kanban

/-- C4 witness: moving task 100 from column 1 to the empty column 2 on a
concrete board; the conclusions hold, and explicitly column 1 ends empty
and column 2 ends as exactly the moved task with its column field updated. -/
theorem move_task_success_exactly_once_witness :
    ((((handleTaskDrop boardMovePair ⟨100, 1⟩ (some 2) none true).1.columns.map
        (fun c => c.id)) = boardMovePair.columns.map (fun c => c.id)) ∧
    (∀ c ∈ (handleTaskDrop boardMovePair ⟨100, 1⟩ (some 2) none true).1.columns,
      c.tasks.countP (fun tk => tk.id == 100) = if c.id = 2 then 1 else 0) ∧
    (∀ c ∈ (handleTaskDrop boardMovePair ⟨100, 1⟩ (some 2) none true).1.columns,
      c.id = 2 → ∃ tk, c.tasks.getLast? = some tk ∧ tk.id = 100 ∧ tk.column = 2) ∧
    (∀ c ∈ (handleTaskDrop boardMovePair ⟨100, 1⟩ (some 2) none true).1.columns,
      c.id ≠ 1 → c.id ≠ 2 → c ∈ boardMovePair.columns)) ∧
    (handleTaskDrop boardMovePair ⟨100, 1⟩ (some 2) none true).1.columns
        = [⟨1, "A", 1, []⟩, ⟨2, "B", 2, [⟨100, 1, 2⟩]⟩] :=
  ⟨move_task_success_exactly_once boardMovePair 100 1 2 none (by decide) (by decide)
      (by decide) (by decide) (by decide),
   by decide⟩

/-- C6 witness: a concrete successful column reorder submits the moved DOM
order, rebuilds the model list with exactly those ids, and permutes the old
column objects with their tasks intact. -/
theorem column_reorder_success_preserves_tasks_witness :
    ∃ ord, (handleColumnDrop boardColumnsPair 1 (some 2) true).2
        = [Action.reorderColumnsCall ord] ∧
      ((handleColumnDrop boardColumnsPair 1 (some 2) true).1.columns.map
          (fun c => c.id)) = ord.map Prod.fst ∧
      List.Perm ((handleColumnDrop boardColumnsPair 1 (some 2) true).1.columns)
        boardColumnsPair.columns :=
  column_reorder_success_preserves_tasks boardColumnsPair 1 2 (by decide) (by decide)
    (by decide)

end Kanban
